import Mathlib

/-!
Shallow embedding of the GateioFutures order-book synchronization core
(`cryptofeed/exchanges/gateio_futures.py`): the per-symbol L2 book state,
the snapshot loader, the sequence validator `_check_update_id`, the delta
applier loop of `_process_l2_book`, and the `message_handler` dispatcher.

Python `dict`s are modelled as association lists with first-match lookup,
in-place update (`alistSet`) and deletion (`alistErase`); `Decimal` values
are modelled as exact rationals (`Rat`); sequence ids as `Int`.
A `Decimal(...)` parse of a price/size string is modelled as an
`Option Rat` (`none` = the parse raises), so an exception raised mid-loop
leaves the mutations already performed in place, exactly as Python does.
-/

set_option linter.unusedVariables false

namespace GateioFutures

/-- First-match lookup in an association list (Python `d[k]` / `k in d`). -/
def alistLookup {α β : Type} [DecidableEq α] : List (α × β) → α → Option β
  | [], _ => none
  | (k, v) :: rest, a => if k = a then some v else alistLookup rest a

/-- In-place update `d[k] = v`: replace the first binding of `k`, else append. -/
def alistSet {α β : Type} [DecidableEq α] : List (α × β) → α → β → List (α × β)
  | [], a, b => [(a, b)]
  | (k, v) :: rest, a, b =>
      if k = a then (a, b) :: rest else (k, v) :: alistSet rest a b

/-- Deletion `del d[k]`. -/
def alistErase {α β : Type} [DecidableEq α] : List (α × β) → α → List (α × β)
  | [], _ => []
  | (k, v) :: rest, a =>
      if k = a then alistErase rest a else (k, v) :: alistErase rest a

/-- A side of the book: price → size (`self._l2_book[symbol].book[side]`). -/
abbrev PriceLevelMap := List (Rat × Rat)

/-- The two sides of one symbol's book. -/
structure SymbolBook where
  bids : PriceLevelMap
  asks : PriceLevelMap
deriving DecidableEq

/-- The mutable feed state: `self._l2_book`, `self.last_update_id`,
`self.forced` (a `defaultdict(bool)`, looked up via `forcedAt`). -/
structure FeedState where
  l2Book : List (String × SymbolBook)
  lastUpdateId : List (String × Int)
  forced : List (String × Bool)
deriving DecidableEq

/-- `self.forced[pair]` with the defaultdict default `False`. -/
def FeedState.forcedAt (st : FeedState) (pair : String) : Bool :=
  (alistLookup st.forced pair).getD false

/-- `_reset`: `self._l2_book = {}`, `self.last_update_id = {}`,
`self.forced = defaultdict(bool)`. -/
def resetState : FeedState := ⟨[], [], []⟩

/-- One entry of `msg['result']['b']` / `['a']`: the results of
`Decimal(update['p'])` and `Decimal(update['s'])`, `none` when the
conversion raises (malformed numeric). -/
structure RawLevel where
  p : Option Rat
  s : Option Rat
deriving DecidableEq

/-- The decoded `msg['result']` of a `futures.order_book_update` message. -/
structure BookUpdateMsg where
  s : String
  t : Rat
  seqU : Int
  sequ : Int
  b : List RawLevel
  a : List RawLevel
deriving DecidableEq

/-- A decoded REST depth snapshot response (`id`, `bids`, `asks`). -/
structure SnapResp where
  respId : Int
  bids : List (Rat × Rat)
  asks : List (Rat × Rat)
deriving DecidableEq

/-- The `delta` dict accumulated by `_process_l2_book`. -/
structure DeltaRecord where
  bidChanges : List (Rat × Rat)
  askChanges : List (Rat × Rat)
deriving DecidableEq

/-- The `raw=` payload handed to `book_callback`: the whole websocket
message for delta updates, the REST data for snapshots. -/
inductive RawPayload where
  | bookMsg (m : BookUpdateMsg)
  | snapData (d : SnapResp)
deriving DecidableEq

/-- One `book_callback` invocation, field per keyword argument
(absent keyword arguments keep their `None` default). -/
structure Emission where
  book : SymbolBook
  receipt : Rat
  delta : Option DeltaRecord
  timestamp : Option Rat
  raw : RawPayload
  sequenceNumber : Option Int
deriving DecidableEq

/-- The dict comprehension `{Decimal(p): Decimal(s) for item in levels}`:
later duplicates overwrite earlier ones. -/
def dictOfLevels (l : List (Rat × Rat)) : PriceLevelMap :=
  l.foldl (fun m pr => alistSet m pr.1 pr.2) []

/-- `_snapshot`: store a fresh book holding exactly the response's levels,
set `last_update_id[symbol] = data['id']`, and emit the snapshot callback
(`raw=data`, `sequence_number=data['id']`, no delta, no event timestamp).
`self.forced` is not touched. -/
def _snapshot (st : FeedState) (symbol : String) (now : Rat) (resp : SnapResp) :
    FeedState × Emission :=
  let book : SymbolBook := ⟨dictOfLevels resp.bids, dictOfLevels resp.asks⟩
  let st' : FeedState :=
    { st with
      l2Book := alistSet st.l2Book symbol book
      lastUpdateId := alistSet st.lastUpdateId symbol resp.respId }
  (st', ⟨book, now, none, none, .snapData resp, some resp.respId⟩)

/-- `_check_update_id`: the sequence validator. Returns `none` when the
lookup `self.last_update_id[pair]` raises `KeyError`, otherwise the new
state and the `skip_update` flag. A full reset replaces the whole state by
`resetState`. -/
def _check_update_id (st : FeedState) (pair : String) (seqU sequ : Int) :
    Option (FeedState × Bool) :=
  match alistLookup st.lastUpdateId pair with
  | none => none
  | some last =>
    let forced : Bool := !(st.forcedAt pair)
    if forced = true ∧ sequ ≤ last then
      some (st, true)
    else if forced = true ∧ seqU ≤ last + 1 ∧ last + 1 ≤ sequ then
      some ({ st with
                lastUpdateId := alistSet st.lastUpdateId pair sequ
                forced := alistSet st.forced pair true }, false)
    else if forced = false ∧ last + 1 = seqU then
      some ({ st with lastUpdateId := alistSet st.lastUpdateId pair sequ }, false)
    else
      some (resetState, true)

/-- The per-side update loop of `_process_l2_book`, threading the book and
the delta record; the `Bool` result is `true` when a `Decimal` conversion
raised, in which case the mutations already performed are kept (Python
mutates the book in place). -/
def applyUpdates (book : PriceLevelMap) (rec : List (Rat × Rat)) :
    List RawLevel → PriceLevelMap × List (Rat × Rat) × Bool
  | [] => (book, rec, false)
  | lv :: rest =>
    match lv.p with
    | none => (book, rec, true)
    | some price =>
      match lv.s with
      | none => (book, rec, true)
      | some amount =>
        if amount = 0 then
          if (alistLookup book price).isSome then
            applyUpdates (alistErase book price) (rec ++ [(price, amount)]) rest
          else
            applyUpdates book rec rest
        else
          applyUpdates (alistSet book price amount) (rec ++ [(price, amount)]) rest

/-- Errors the handler can raise: a `KeyError` on a missing dict key, or a
`ParseError` from decoding (`json.loads` / `Decimal`). -/
inductive ProcError where
  | keyError
  | parseError
deriving DecidableEq

/-- The tail of `_process_l2_book` after the snapshot-if: run the sequence
check on the current state `st1`, and when the batch is accepted apply both
sides in venue order and emit the book callback (`delta=`, `timestamp=ts`,
`raw=msg`, and no `sequence_number`); `emits` carries the snapshot
emission when one was fetched. -/
def _process_l2_book_validated (st1 : FeedState) (emits : List Emission)
    (m : BookUpdateMsg) (receipt : Rat) : FeedState × List Emission × Option ProcError :=
  match _check_update_id st1 m.s m.seqU m.sequ with
  | none => (st1, emits, some .keyError)
  | some (st2, skip) =>
    if skip then (st2, emits, none)
    else
      match alistLookup st2.l2Book m.s with
      | none => (st2, emits, some .keyError)
      | some bk =>
        let rb := applyUpdates bk.bids [] m.b
        let ra := if rb.2.2 then (bk.asks, ([] : List (Rat × Rat)), false)
                  else applyUpdates bk.asks [] m.a
        let bk' : SymbolBook := ⟨rb.1, ra.1⟩
        let st3 : FeedState := { st2 with l2Book := alistSet st2.l2Book m.s bk' }
        if rb.2.2 || ra.2.2 then (st3, emits, some .parseError)
        else
          (st3,
           emits ++ [⟨bk', receipt, some ⟨rb.2.1, ra.2.1⟩, some (m.t / 1000),
                      .bookMsg m, none⟩],
           none)

/-- `_process_l2_book`: fetch a snapshot when the symbol has no book yet
(the environment's response is the `snap` argument), then validate and
apply the batch. -/
def _process_l2_book (st : FeedState) (m : BookUpdateMsg) (receipt : Rat)
    (snap : SnapResp) : FeedState × List Emission × Option ProcError :=
  if (alistLookup st.l2Book m.s).isSome then
    _process_l2_book_validated st [] m receipt
  else
    let r := _snapshot st m.s receipt snap
    _process_l2_book_validated r.1 [r.2] m receipt

/-- An inbound websocket message as `message_handler` classifies it:
`malformedJson` fails `json.loads` (ParseError before anything runs),
`subscribeEvent` returns early, `bookUpdate` dispatches to
`_process_l2_book`, `otherChannel` is logged and ignored. -/
inductive InboundMsg where
  | malformedJson
  | subscribeEvent
  | bookUpdate (m : BookUpdateMsg)
  | otherChannel
deriving DecidableEq

/-- `message_handler` restricted to the book channel (the stateless
ticker/trade/candle translations carry no book state). -/
def message_handler (st : FeedState) (msg : InboundMsg) (receipt : Rat)
    (snap : SnapResp) : FeedState × List Emission × Option ProcError :=
  match msg with
  | .malformedJson => (st, [], some .parseError)
  | .subscribeEvent => (st, [], none)
  | .bookUpdate m => _process_l2_book st m receipt snap
  | .otherChannel => (st, [], none)

/-- Run a stream of inbound messages (each with its receipt time and the
snapshot the venue would serve if one is fetched), as the single-threaded
handler does, keeping only the state. -/
def runMsgs (st : FeedState) : List (InboundMsg × Rat × SnapResp) → FeedState
  | [] => st
  | (msg, r, snap) :: rest => runMsgs (message_handler st msg r snap).1 rest

/-- Feed a list of `(U, u)` batches for one symbol through the sequence
validator alone. -/
def processSeq (st : FeedState) (pair : String) : List (Int × Int) → FeedState
  | [] => st
  | (seqU, sequ) :: rest =>
    match _check_update_id st pair seqU sequ with
    | none => processSeq st pair rest
    | some (st', _) => processSeq st' pair rest

/-! ### Invariant predicates and concrete inputs -/

/-- Every stored size on one side is strictly positive. -/
def sidePos (mp : PriceLevelMap) : Prop := ∀ pr ∈ mp, 0 < pr.2

/-- Every stored size in every tracked book is strictly positive. -/
def booksPos (st : FeedState) : Prop :=
  ∀ sym bk, alistLookup st.l2Book sym = some bk → sidePos bk.bids ∧ sidePos bk.asks

/-- All parsed sizes in a level list are nonnegative (the venue sends a
size field, `0` denoting deletion). -/
def wfLevels (l : List RawLevel) : Prop :=
  ∀ lv ∈ l, ∀ x : Rat, lv.s = some x → 0 ≤ x

/-- A well-formed inbound message: its level sizes are nonnegative. -/
def wfMsg : InboundMsg → Prop
  | .bookUpdate m => wfLevels m.b ∧ wfLevels m.a
  | _ => True

/-- A well-formed snapshot response: every level size strictly positive
(the SnapshotLoader contract of the depth endpoint). -/
def wfSnap (snap : SnapResp) : Prop :=
  (∀ pr ∈ snap.bids, 0 < pr.2) ∧ (∀ pr ∈ snap.asks, 0 < pr.2)

/-- A symbol has a book exactly when it has a baseline sequence id. -/
def keysAligned (st : FeedState) : Prop :=
  ∀ sym, (alistLookup st.l2Book sym).isSome = (alistLookup st.lastUpdateId sym).isSome

/-- A concrete `Synced` state (baseline id 100) used to evaluate the
handler on explicit inputs. -/
def exSyncedState : FeedState :=
  ⟨[("BTC_USD", ⟨[], []⟩)], [("BTC_USD", 100)], [("BTC_USD", true)]⟩

/-- A well-formed accepted batch `(U=101, u=105)` with one bid level. -/
def exBatch : BookUpdateMsg :=
  ⟨"BTC_USD", 2000, 101, 105, [⟨some 5, some 2⟩], []⟩

/-- A snapshot response (unused on the tracked path). -/
def exSnap : SnapResp := ⟨0, [], []⟩

/-- A batch whose second bid level has an unparseable price string. -/
def exBadBatch : BookUpdateMsg :=
  ⟨"BTC_USD", 2000, 101, 105, [⟨some 5, some 2⟩, ⟨none, some 3⟩], []⟩

/-- A concrete `AwaitingBridge` state (baseline id 100, `forced` empty). -/
def exAwaitState : FeedState :=
  ⟨[("BTC_USD", ⟨[], []⟩)], [("BTC_USD", 100)], []⟩

/-- Two `Synced` symbols, used to exhibit the cross-symbol reset. -/
def exTwoSymbolState : FeedState :=
  ⟨[("A", ⟨[((1 : Rat), (2 : Rat))], []⟩), ("B", ⟨[], [((3 : Rat), (4 : Rat))]⟩)],
   [("A", 100), ("B", 200)], [("A", true), ("B", true)]⟩

/-- A gapped batch for the `Synced` state (`U = 103 ≠ 100 + 1`). -/
def exGapBatch : BookUpdateMsg := ⟨"BTC_USD", 2000, 103, 105, [], []⟩

/-- A snapshot response with id 2000 and one level per side. -/
def exSnapResp : SnapResp := ⟨2000, [((54672 : Rat), 10)], [((54743 : Rat), 5)]⟩

/-- A batch with no level updates (sequence range 2001–2013). -/
def exEmptyBatch : BookUpdateMsg := ⟨"BTC_USD", 2000, 2001, 2013, [], []⟩

/-! ### Association-list lemmas -/

theorem alistLookup_set {α β : Type} [DecidableEq α] (m : List (α × β)) (k : α) (v : β)
    (q : α) :
    alistLookup (alistSet m k v) q = if k = q then some v else alistLookup m q := by
  induction m with
  | nil => simp [alistSet, alistLookup]
  | cons hd tl ih =>
    obtain ⟨a, b⟩ := hd
    by_cases hak : a = k
    · subst hak
      simp only [alistSet, if_pos rfl, alistLookup]
      by_cases hq : a = q <;> simp [hq, alistLookup]
    · simp only [alistSet, if_neg hak, alistLookup]
      by_cases hq : a = q
      · subst hq
        have : ¬ k = a := fun h => hak h.symm
        simp [this]
      · simp [hq, ih]

theorem mem_alistSet {α β : Type} [DecidableEq α] (m : List (α × β)) (k : α) (v : β)
    (pr : α × β) (h : pr ∈ alistSet m k v) : pr = (k, v) ∨ pr ∈ m := by
  induction m with
  | nil =>
    simp only [alistSet, List.mem_singleton] at h
    exact Or.inl h
  | cons hd tl ih =>
    obtain ⟨a, b⟩ := hd
    simp only [alistSet] at h
    split at h
    · rcases List.mem_cons.mp h with h' | h'
      · exact Or.inl h'
      · exact Or.inr (List.mem_cons_of_mem _ h')
    · rcases List.mem_cons.mp h with h' | h'
      · exact Or.inr (h' ▸ List.mem_cons_self _ _)
      · rcases ih h' with h'' | h''
        · exact Or.inl h''
        · exact Or.inr (List.mem_cons_of_mem _ h'')

theorem mem_alistErase {α β : Type} [DecidableEq α] (m : List (α × β)) (k : α)
    (pr : α × β) (h : pr ∈ alistErase m k) : pr ∈ m := by
  induction m with
  | nil => simp only [alistErase] at h; exact h
  | cons hd tl ih =>
    obtain ⟨a, b⟩ := hd
    by_cases hak : a = k
    · simp only [alistErase, if_pos hak] at h
      exact List.mem_cons_of_mem _ (ih h)
    · simp only [alistErase, if_neg hak, List.mem_cons] at h
      rcases h with h | h
      · exact h ▸ List.mem_cons_self _ _
      · exact List.mem_cons_of_mem _ (ih h)

theorem alistLookup_none_of_not_mem_keys {α β : Type} [DecidableEq α]
    (m : List (α × β)) (k : α) (h : k ∉ m.map Prod.fst) : alistLookup m k = none := by
  induction m with
  | nil => simp [alistLookup]
  | cons hd tl ih =>
    obtain ⟨a, b⟩ := hd
    simp only [List.map_cons, List.mem_cons] at h
    push_neg at h
    simp only [alistLookup]
    rw [if_neg (fun hk => h.1 hk.symm)]
    exact ih h.2

theorem mem_foldl_alistSet {α β : Type} [DecidableEq α] (l : List (α × β))
    (init : List (α × β)) (pr : α × β)
    (h : pr ∈ l.foldl (fun m q => alistSet m q.1 q.2) init) : pr ∈ init ∨ pr ∈ l := by
  induction l generalizing init with
  | nil => exact Or.inl (by simpa using h)
  | cons hd tl ih =>
    simp only [List.foldl_cons] at h
    rcases ih _ h with h' | h'
    · rcases mem_alistSet _ _ _ _ h' with h'' | h''
      · exact Or.inr (by simp [h''])
      · exact Or.inl h''
    · exact Or.inr (List.mem_cons_of_mem _ h')

theorem lookup_foldl_alistSet_not_mem {α β : Type} [DecidableEq α] (l : List (α × β))
    (init : List (α × β)) (k : α) (h : k ∉ l.map Prod.fst) :
    alistLookup (l.foldl (fun m q => alistSet m q.1 q.2) init) k = alistLookup init k := by
  induction l generalizing init with
  | nil => simp
  | cons hd tl ih =>
    simp only [List.map_cons, List.mem_cons] at h
    push_neg at h
    simp only [List.foldl_cons]
    rw [ih _ h.2, alistLookup_set, if_neg h.1.symm]

theorem alistLookup_eq_none_iff {α β : Type} [DecidableEq α] (m : List (α × β)) (k : α) :
    alistLookup m k = none ↔ k ∉ m.map Prod.fst := by
  induction m with
  | nil => simp [alistLookup]
  | cons hd tl ih =>
    obtain ⟨a, b⟩ := hd
    simp only [alistLookup, List.map_cons, List.mem_cons]
    by_cases hak : a = k
    · simp [hak]
    · simp only [if_neg hak, ih]
      constructor
      · rintro h (h' | h')
        · exact hak h'.symm
        · exact h h'
      · intro h h'
        exact h (Or.inr h')

theorem lookup_foldl_alistSet_mem {α β : Type} [DecidableEq α] (l : List (α × β))
    (init : List (α × β)) (k : α) (v : β) (hnd : (l.map Prod.fst).Nodup)
    (h : alistLookup l k = some v) :
    alistLookup (l.foldl (fun m q => alistSet m q.1 q.2) init) k = some v := by
  induction l generalizing init with
  | nil => simp [alistLookup] at h
  | cons hd tl ih =>
    obtain ⟨a, b⟩ := hd
    simp only [List.map_cons, List.nodup_cons] at hnd
    simp only [alistLookup] at h
    simp only [List.foldl_cons]
    by_cases hak : a = k
    · subst hak
      rw [if_pos rfl] at h
      cases h
      rw [lookup_foldl_alistSet_not_mem _ _ _ hnd.1, alistLookup_set, if_pos rfl]
    · rw [if_neg hak] at h
      exact ih _ hnd.2 h

theorem lookup_dictOfLevels (l : List (Rat × Rat)) (k : Rat)
    (h : (l.map Prod.fst).Nodup) : alistLookup (dictOfLevels l) k = alistLookup l k := by
  unfold dictOfLevels
  cases hl : alistLookup l k with
  | none =>
    rw [lookup_foldl_alistSet_not_mem _ _ _ ((alistLookup_eq_none_iff l k).mp hl)]
    simp [alistLookup]
  | some v => exact lookup_foldl_alistSet_mem _ _ _ _ h hl

/-! ### Sequence-validator lemmas -/

theorem check_update_id_isSome_iff (st : FeedState) (pair : String) (seqU sequ : Int) :
    (_check_update_id st pair seqU sequ).isSome =
      (alistLookup st.lastUpdateId pair).isSome := by
  unfold _check_update_id
  cases alistLookup st.lastUpdateId pair with
  | none => rfl
  | some last => simp only [Option.isSome_some]; split_ifs <;> rfl

/-- Case analysis on one step of the validator: it either keeps the state
(stale discard), resets everything, or advances `last_update_id[pair]` to
`u` while either bridging (`last + 1 ≤ u`) or extending (`U = last + 1`). -/
theorem check_update_id_cases (st : FeedState) (pair : String) (seqU sequ : Int)
    (st' : FeedState) (skip : Bool)
    (h : _check_update_id st pair seqU sequ = some (st', skip)) :
    (st' = st ∧ skip = true) ∨ (st' = resetState ∧ skip = true) ∨
    (∃ last, alistLookup st.lastUpdateId pair = some last ∧
      st'.lastUpdateId = alistSet st.lastUpdateId pair sequ ∧
      st'.l2Book = st.l2Book ∧
      (last + 1 ≤ sequ ∨ seqU = last + 1)) := by
  unfold _check_update_id at h
  cases hl : alistLookup st.lastUpdateId pair with
  | none => rw [hl] at h; exact absurd h (by simp)
  | some last =>
    rw [hl] at h
    simp only at h
    split_ifs at h with h1 h2 h3
    · cases h
      exact Or.inl ⟨rfl, rfl⟩
    · cases h
      exact Or.inr (Or.inr ⟨last, rfl, rfl, rfl, Or.inl h2.2.2⟩)
    · cases h
      exact Or.inr (Or.inr ⟨last, rfl, rfl, rfl, Or.inr h3.2.symm⟩)
    · cases h
      exact Or.inr (Or.inl ⟨rfl, rfl⟩)

theorem processSeq_of_lookup_none (pair : String) (l : List (Int × Int)) :
    ∀ st : FeedState, alistLookup st.lastUpdateId pair = none →
      processSeq st pair l = st := by
  induction l with
  | nil => intro st _; rfl
  | cons hd tl ih =>
    intro st h
    obtain ⟨seqU, sequ⟩ := hd
    have hnone : _check_update_id st pair seqU sequ = none := by
      have := check_update_id_isSome_iff st pair seqU sequ
      rw [h] at this
      simp only [Option.isSome_none] at this
      exact Option.not_isSome_iff_eq_none.mp (by simp [this])
    simp only [processSeq, hnone]
    exact ih st h

theorem resetState_lookup_none (pair : String) :
    alistLookup resetState.lastUpdateId pair = none := rfl

/-- Monotonicity of `last_update_id[pair]` along any run of the validator
on well-formed batches (`U ≤ u`): if the id is still present at the end,
it has not decreased. -/
theorem processSeq_mono (pair : String) (l : List (Int × Int)) :
    ∀ (st : FeedState) (last : Int),
      (∀ b ∈ l, Prod.fst b ≤ Prod.snd b) →
      alistLookup st.lastUpdateId pair = some last →
      ∀ last', alistLookup (processSeq st pair l).lastUpdateId pair = some last' →
        last ≤ last' := by
  induction l with
  | nil =>
    intro st last _ hl last' hl'
    simp only [processSeq] at hl'
    rw [hl] at hl'
    cases hl'
    exact le_refl _
  | cons hd tl ih =>
    intro st last hwf hl last' hl'
    obtain ⟨seqU, sequ⟩ := hd
    have hwfhd : seqU ≤ sequ := hwf _ (List.mem_cons_self _ _)
    have hwftl : ∀ b ∈ tl, Prod.fst b ≤ Prod.snd b :=
      fun b hb => hwf b (List.mem_cons_of_mem _ hb)
    cases hc : _check_update_id st pair seqU sequ with
    | none =>
      have := check_update_id_isSome_iff st pair seqU sequ
      rw [hc, hl] at this
      simp at this
    | some res =>
      obtain ⟨st1, skip⟩ := res
      simp only [processSeq, hc] at hl'
      rcases check_update_id_cases st pair seqU sequ st1 skip hc with
        ⟨hst, _⟩ | ⟨hst, _⟩ | ⟨last0, hlast0, hupd, _, hadv⟩
      · exact ih st last hwftl (hst ▸ hl) last' (by rw [hst] at hl'; exact hl')
      · rw [hst, processSeq_of_lookup_none pair tl resetState
            (resetState_lookup_none pair)] at hl'
        exact absurd hl' (by simp [resetState_lookup_none])
      · rw [hlast0] at hl
        cases hl
        have hse : alistLookup st1.lastUpdateId pair = some sequ := by
          rw [hupd, alistLookup_set, if_pos rfl]
        have hmono : last ≤ sequ := by
          rcases hadv with h' | h' <;> omega
        exact le_trans hmono (ih st1 sequ hwftl hse last' hl')

/-- C1: in `AwaitingBridge` (`self.forced[pair]` false), a batch with
`u ≤ lastSequenceId` is discarded and the state is untouched; a batch with
`u > lastSequenceId` is applied with `lastSequenceId := u` and the symbol
becomes `Synced` exactly when `U ≤ lastSequenceId + 1` (which together with
`u > lastSequenceId` is the inclusive bridge condition
`U ≤ lastSequenceId + 1 ≤ u`); in every remaining case the whole state is
fully reset. -/
theorem awaiting_bridge_transition (st : FeedState) (pair : String)
    (seqU sequ last : Int)
    (hf : st.forcedAt pair = false)
    (hl : alistLookup st.lastUpdateId pair = some last) :
    (sequ ≤ last → _check_update_id st pair seqU sequ = some (st, true)) ∧
    (last < sequ → seqU ≤ last + 1 →
      _check_update_id st pair seqU sequ =
        some ({ st with lastUpdateId := alistSet st.lastUpdateId pair sequ,
                        forced := alistSet st.forced pair true }, false) ∧
      ({ st with lastUpdateId := alistSet st.lastUpdateId pair sequ,
                 forced := alistSet st.forced pair true } : FeedState).forcedAt pair
        = true ∧
      alistLookup ({ st with
                 lastUpdateId := alistSet st.lastUpdateId pair sequ,
                 forced := alistSet st.forced pair true } : FeedState).lastUpdateId pair
        = some sequ) ∧
    (last < sequ → last + 1 < seqU →
      _check_update_id st pair seqU sequ = some (resetState, true)) := by
  have hset1 : alistLookup (alistSet st.lastUpdateId pair sequ) pair = some sequ := by
    rw [alistLookup_set, if_pos rfl]
  have hset2 : (alistLookup (alistSet st.forced pair true) pair).getD false = true := by
    rw [alistLookup_set, if_pos rfl]; rfl
  refine ⟨fun h1 => ?_, fun h1 h2 => ⟨?_, ?_, ?_⟩, fun h1 h2 => ?_⟩
  · unfold _check_update_id
    rw [hl]
    simp only [hf, Bool.not_false]
    rw [if_pos ⟨trivial, h1⟩]
  · unfold _check_update_id
    rw [hl]
    simp only [hf, Bool.not_false]
    rw [if_neg (fun hc => absurd hc.2 (not_le.mpr h1)),
        if_pos ⟨trivial, h2, by omega⟩]
  · exact hset2
  · exact hset1
  · unfold _check_update_id
    rw [hl]
    simp only [hf, Bool.not_false]
    rw [if_neg (fun hc => absurd hc.2 (not_le.mpr h1)),
        if_neg (fun hc => absurd hc.2.1 (not_le.mpr h2)),
        if_neg (fun hc => by cases hc.1)]


/-- Whatever path the validated continuation takes, the emissions it
returns start with the emissions accumulated before it (in particular a
snapshot emission fetched for an unseen symbol comes first). -/
theorem validated_emits_prefix (st1 : FeedState) (emits : List Emission)
    (m : BookUpdateMsg) (receipt : Rat) :
    ∃ tail, (_process_l2_book_validated st1 emits m receipt).2.1 = emits ++ tail := by
  unfold _process_l2_book_validated
  rcases hc : _check_update_id st1 m.s m.seqU m.sequ with _ | ⟨st2, skip⟩ <;>
    simp only [hc]
  · exact ⟨[], (List.append_nil emits).symm⟩
  · cases skip with
    | false =>
      rw [if_neg (by simp)]
      cases hbk : alistLookup st2.l2Book m.s with
      | none =>
        simp only [hbk]
        exact ⟨[], (List.append_nil emits).symm⟩
      | some bk =>
        simp only [hbk]
        split <;> split <;>
          first
            | exact ⟨[], (List.append_nil emits).symm⟩
            | exact ⟨_, rfl⟩
    | true =>
      rw [if_pos rfl]
      exact ⟨[], (List.append_nil emits).symm⟩

/-- Closed form of the validator in the `Synced` state: accept exactly when
`U = last + 1`, otherwise fully reset. -/
theorem check_update_id_synced (st : FeedState) (pair : String) (seqU sequ last : Int)
    (hf : st.forcedAt pair = true)
    (hl : alistLookup st.lastUpdateId pair = some last) :
    _check_update_id st pair seqU sequ =
      if seqU = last + 1 then
        some ({ st with lastUpdateId := alistSet st.lastUpdateId pair sequ }, false)
      else some (resetState, true) := by
  unfold _check_update_id
  rw [hl]
  simp only [hf, Bool.not_true]
  rw [if_neg (fun hc => by cases hc.1), if_neg (fun hc => by cases hc.1)]
  by_cases hU : seqU = last + 1
  · rw [if_pos ⟨trivial, hU.symm⟩, if_pos hU]
  · rw [if_neg (fun hc => hU hc.2.symm), if_neg hU]

/-- C2: once `Synced` (`self.forced[pair]` true), a batch is accepted iff
`U = lastSequenceId + 1` (anything else triggers the full reset), an
accepted batch leaves `lastSequenceId = u` — the `lastSeq` of the last
accepted batch — and along any run of the validator on well-formed batches
(`U ≤ u`) the id is monotonically non-decreasing. -/
theorem synced_acceptance_monotonicity (st : FeedState) (pair : String)
    (seqU sequ last : Int)
    (hf : st.forcedAt pair = true)
    (hl : alistLookup st.lastUpdateId pair = some last) :
    (seqU = last + 1 →
      _check_update_id st pair seqU sequ =
        some ({ st with lastUpdateId := alistSet st.lastUpdateId pair sequ }, false) ∧
      alistLookup ({ st with
          lastUpdateId := alistSet st.lastUpdateId pair sequ } : FeedState).lastUpdateId
          pair = some sequ) ∧
    (seqU ≠ last + 1 → _check_update_id st pair seqU sequ = some (resetState, true)) ∧
    (∀ l : List (Int × Int), (∀ b ∈ l, Prod.fst b ≤ Prod.snd b) →
      ∀ last', alistLookup (processSeq st pair l).lastUpdateId pair = some last' →
        last ≤ last') := by
  have hstep := check_update_id_synced st pair seqU sequ last hf hl
  refine ⟨fun hU => ⟨?_, ?_⟩, fun hU => ?_, ?_⟩
  · rw [hstep, if_pos hU]
  · simp [alistLookup_set]
  · rw [hstep, if_neg hU]
  · exact fun l hwf last' hl' => processSeq_mono pair l st last hwf hl last' hl'

/-- C3: within a batch, each parsed `(price, size)` update is applied in
venue order as one step of the loop: `size = 0` with the level present
deletes it and records `(price, 0)`; `size = 0` with the level absent
changes neither the book nor the record; `size > 0` replaces the level
with exactly `size` (the stored size is `size`, not an accumulation) and
records `(price, size)`. -/
theorem delta_application_step (book : PriceLevelMap) (rec : List (Rat × Rat))
    (price amount : Rat) (rest : List RawLevel) :
    (amount = 0 → (alistLookup book price).isSome = true →
      applyUpdates book rec (⟨some price, some amount⟩ :: rest) =
        applyUpdates (alistErase book price) (rec ++ [(price, 0)]) rest) ∧
    (amount = 0 → alistLookup book price = none →
      applyUpdates book rec (⟨some price, some amount⟩ :: rest) =
        applyUpdates book rec rest) ∧
    (0 < amount →
      applyUpdates book rec (⟨some price, some amount⟩ :: rest) =
        applyUpdates (alistSet book price amount) (rec ++ [(price, amount)]) rest ∧
      alistLookup (alistSet book price amount) price = some amount) := by
  refine ⟨fun h0 hmem => ?_, fun h0 hmem => ?_, fun hpos => ⟨?_, ?_⟩⟩
  · subst h0
    simp only [applyUpdates]
    rw [if_pos trivial, if_pos hmem]
  · subst h0
    simp only [applyUpdates]
    rw [if_pos trivial, if_neg (by simp [hmem])]
  · simp only [applyUpdates]
    rw [if_neg (ne_of_gt hpos)]
  · rw [alistLookup_set, if_pos rfl]

/-- C4: a gap on one `Synced` symbol triggers the full reset, which clears
the book, baseline id and sync flag of every tracked symbol; afterwards
any symbol with no book first runs the snapshot fetch — its emission comes
before anything else and the fresh baseline id is in place before the
batch is evaluated. -/
theorem gap_reset_clears_every_symbol (st : FeedState) (pair : String)
    (seqU sequ last : Int)
    (hf : st.forcedAt pair = true)
    (hl : alistLookup st.lastUpdateId pair = some last)
    (hgap : seqU ≠ last + 1) :
    _check_update_id st pair seqU sequ = some (resetState, true) ∧
    (∀ sym, alistLookup resetState.l2Book sym = none ∧
            alistLookup resetState.lastUpdateId sym = none ∧
            resetState.forcedAt sym = false) ∧
    (∀ (st2 : FeedState) (m : BookUpdateMsg) (r : Rat) (snap : SnapResp),
      alistLookup st2.l2Book m.s = none →
      (∃ tail, (_process_l2_book st2 m r snap).2.1 =
          (_snapshot st2 m.s r snap).2 :: tail) ∧
      (_snapshot st2 m.s r snap).2.sequenceNumber = some snap.respId ∧
      alistLookup (_snapshot st2 m.s r snap).1.lastUpdateId m.s = some snap.respId) := by
  refine ⟨?_, fun sym => ⟨rfl, rfl, rfl⟩, fun st2 m r snap hnone => ⟨?_, rfl, ?_⟩⟩
  · rw [check_update_id_synced st pair seqU sequ last hf hl, if_neg hgap]
  · unfold _process_l2_book
    rw [if_neg (by simp [hnone])]
    obtain ⟨tail, htail⟩ := validated_emits_prefix (_snapshot st2 m.s r snap).1
      [(_snapshot st2 m.s r snap).2] m r
    exact ⟨tail, by rw [htail]; rfl⟩
  · simp only [_snapshot]
    rw [alistLookup_set, if_pos rfl]

/-- C5: after a snapshot load, the symbol's book holds exactly the bid and
ask levels of the response, `lastSequenceId` is the response's `id`, and
the symbol is still `AwaitingBridge` (`forced` is untouched, hence false
for a symbol that had no book). -/
theorem snapshot_establishes_awaiting_bridge (st : FeedState) (sym : String)
    (now : Rat) (resp : SnapResp)
    (hf : st.forcedAt sym = false)
    (hb : (resp.bids.map Prod.fst).Nodup)
    (ha : (resp.asks.map Prod.fst).Nodup) :
    alistLookup (_snapshot st sym now resp).1.lastUpdateId sym = some resp.respId ∧
    (_snapshot st sym now resp).1.forcedAt sym = false ∧
    ∃ bk, alistLookup (_snapshot st sym now resp).1.l2Book sym = some bk ∧
      (∀ p, alistLookup bk.bids p = alistLookup resp.bids p) ∧
      (∀ p, alistLookup bk.asks p = alistLookup resp.asks p) := by
  refine ⟨?_, ?_, ⟨⟨dictOfLevels resp.bids, dictOfLevels resp.asks⟩, ?_, ?_, ?_⟩⟩
  · simp only [_snapshot]
    rw [alistLookup_set, if_pos rfl]
  · exact hf
  · simp only [_snapshot]
    rw [alistLookup_set, if_pos rfl]
  · exact fun p => lookup_dictOfLevels _ p hb
  · exact fun p => lookup_dictOfLevels _ p ha

/-- C6 counterexample: for this concrete applied batch the single emitted
book event has `sequence_number = None` — it does not contain the batch's
new sequence id `u = 105` (only the snapshot callback passes a
`sequence_number`). -/
theorem delta_emission_lacks_sequence_id :
    ((_process_l2_book exSyncedState exBatch 7 exSnap).2.1).map Emission.sequenceNumber
      = [none] ∧
    ((_process_l2_book exSyncedState exBatch 7 exSnap).2.1).map Emission.sequenceNumber
      ≠ [some exBatch.sequ] := by
  constructor <;> decide

/-- C6 (amended): for every applied batch the emission carries the current
book reference (the one stored for the symbol), the accumulated
DeltaRecord, the event timestamp `t / 1000`, the raw message — but no
sequence id: its `sequence_number` field is `None`. -/
theorem applied_batch_emission (st : FeedState) (m : BookUpdateMsg) (receipt : Rat)
    (snap : SnapResp) (st2 : FeedState) (bk : SymbolBook)
    (htrack : (alistLookup st.l2Book m.s).isSome = true)
    (hcheck : _check_update_id st m.s m.seqU m.sequ = some (st2, false))
    (hbk : alistLookup st2.l2Book m.s = some bk)
    (hbe : (applyUpdates bk.bids [] m.b).2.2 = false)
    (hae : (applyUpdates bk.asks [] m.a).2.2 = false) :
    ∃ em : Emission, (_process_l2_book st m receipt snap).2.1 = [em] ∧
      alistLookup (_process_l2_book st m receipt snap).1.l2Book m.s = some em.book ∧
      em.delta = some ⟨(applyUpdates bk.bids [] m.b).2.1,
                       (applyUpdates bk.asks [] m.a).2.1⟩ ∧
      em.timestamp = some (m.t / 1000) ∧
      em.raw = RawPayload.bookMsg m ∧
      em.sequenceNumber = none := by
  refine ⟨⟨⟨(applyUpdates bk.bids [] m.b).1, (applyUpdates bk.asks [] m.a).1⟩,
          receipt,
          some ⟨(applyUpdates bk.bids [] m.b).2.1, (applyUpdates bk.asks [] m.a).2.1⟩,
          some (m.t / 1000), RawPayload.bookMsg m, none⟩, ?_, ?_, rfl, rfl, rfl, rfl⟩
  · simp [_process_l2_book, _process_l2_book_validated, htrack, hcheck, hbk, hbe, hae]
  · simp [_process_l2_book, _process_l2_book_validated, htrack, hcheck, hbk, hbe, hae,
          alistLookup_set]

/-- C7: when a tracked `Synced` symbol's batch has a gap, the handler run
returns the fully reset state with an empty emission list (no book event,
no error — only the warning is logged), and after the reset no book exists
at all, so none of the batch's level updates reached any book. -/
theorem reset_produces_no_emission (st : FeedState) (m : BookUpdateMsg)
    (receipt : Rat) (snap : SnapResp) (last : Int)
    (htrack : (alistLookup st.l2Book m.s).isSome = true)
    (hf : st.forcedAt m.s = true)
    (hl : alistLookup st.lastUpdateId m.s = some last)
    (hgap : m.seqU ≠ last + 1) :
    _process_l2_book st m receipt snap = (resetState, [], none) ∧
    (∀ sym, alistLookup resetState.l2Book sym = none) := by
  refine ⟨?_, fun sym => rfl⟩
  simp only [_process_l2_book]
  rw [if_pos htrack]
  unfold _process_l2_book_validated
  rw [check_update_id_synced st m.s m.seqU m.sequ last hf hl, if_neg hgap]
  rfl

/-! ### Positivity invariant (C8) -/

theorem sidePos_alistSet (mp : PriceLevelMap) (k v : Rat)
    (h : sidePos mp) (hv : 0 < v) : sidePos (alistSet mp k v) := by
  intro pr hpr
  rcases mem_alistSet mp k v pr hpr with he | he
  · rw [he]; exact hv
  · exact h pr he

theorem sidePos_alistErase (mp : PriceLevelMap) (k : Rat)
    (h : sidePos mp) : sidePos (alistErase mp k) :=
  fun pr hpr => h pr (mem_alistErase mp k pr hpr)

theorem sidePos_dictOfLevels (l : List (Rat × Rat))
    (h : ∀ pr ∈ l, 0 < pr.2) : sidePos (dictOfLevels l) := by
  intro pr hpr
  rcases mem_foldl_alistSet l [] pr hpr with h' | h'
  · exact absurd h' (List.not_mem_nil pr)
  · exact h pr h'

theorem applyUpdates_pos (updates : List RawLevel) :
    ∀ (book : PriceLevelMap) (rec : List (Rat × Rat)),
      sidePos book → wfLevels updates →
      sidePos (applyUpdates book rec updates).1 := by
  induction updates with
  | nil => intro book rec hb _; exact hb
  | cons lv rest ih =>
    intro book rec hb hwf
    have hwfrest : wfLevels rest := fun l hl => hwf l (List.mem_cons_of_mem _ hl)
    cases hp : lv.p with
    | none =>
      simp only [applyUpdates, hp]
      exact hb
    | some price =>
      cases hs : lv.s with
      | none =>
        simp only [applyUpdates, hp, hs]
        exact hb
      | some amount =>
        simp only [applyUpdates, hp, hs]
        by_cases h0 : amount = 0
        · rw [if_pos h0]
          by_cases hmem : (alistLookup book price).isSome = true
          · rw [if_pos hmem]
            exact ih _ _ (sidePos_alistErase _ _ hb) hwfrest
          · rw [if_neg hmem]
            exact ih _ _ hb hwfrest
        · rw [if_neg h0]
          have hamt : 0 ≤ amount := hwf lv (List.mem_cons_self _ _) amount hs
          exact ih _ _
            (sidePos_alistSet _ _ _ hb (lt_of_le_of_ne hamt (Ne.symm h0))) hwfrest

theorem booksPos_resetState : booksPos resetState := by
  intro sym bk h
  simp [resetState, alistLookup] at h

theorem booksPos_snapshot (st : FeedState) (sym : String) (now : Rat)
    (resp : SnapResp) (h : booksPos st) (hs : wfSnap resp) :
    booksPos (_snapshot st sym now resp).1 := by
  intro sym' bk hbk
  simp only [_snapshot] at hbk
  rw [alistLookup_set] at hbk
  by_cases he : sym = sym'
  · rw [if_pos he] at hbk
    cases hbk
    exact ⟨sidePos_dictOfLevels _ hs.1, sidePos_dictOfLevels _ hs.2⟩
  · rw [if_neg he] at hbk
    exact h sym' bk hbk

theorem booksPos_check (st : FeedState) (pair : String) (seqU sequ : Int)
    (st' : FeedState) (skip : Bool)
    (hc : _check_update_id st pair seqU sequ = some (st', skip))
    (h : booksPos st) : booksPos st' := by
  rcases check_update_id_cases st pair seqU sequ st' skip hc with
    ⟨he, _⟩ | ⟨he, _⟩ | ⟨last, _, _, hbook, _⟩
  · rw [he]; exact h
  · rw [he]; exact booksPos_resetState
  · intro sym bk hbk
    exact h sym bk (by rw [← hbook]; exact hbk)

theorem booksPos_validated (st1 : FeedState) (emits : List Emission)
    (m : BookUpdateMsg) (receipt : Rat) (h1 : booksPos st1)
    (hb : wfLevels m.b) (ha : wfLevels m.a) :
    booksPos (_process_l2_book_validated st1 emits m receipt).1 := by
  unfold _process_l2_book_validated
  rcases hc : _check_update_id st1 m.s m.seqU m.sequ with _ | ⟨st2, skip⟩ <;>
    simp only [hc]
  · exact h1
  · have h2 : booksPos st2 := booksPos_check st1 m.s m.seqU m.sequ st2 skip hc h1
    cases skip with
    | false =>
      rw [if_neg (by simp)]
      cases hbk : alistLookup st2.l2Book m.s with
      | none =>
        simp only [hbk]
        exact h2
      | some bk =>
        simp only [hbk]
        obtain ⟨hbids, hasks⟩ := h2 m.s bk hbk
        have hbids' : sidePos (applyUpdates bk.bids [] m.b).1 :=
          applyUpdates_pos m.b bk.bids [] hbids hb
        have hstore : ∀ bknew : SymbolBook, sidePos bknew.bids → sidePos bknew.asks →
            ∀ sym bk', alistLookup (alistSet st2.l2Book m.s bknew) sym = some bk' →
              sidePos bk'.bids ∧ sidePos bk'.asks := by
          intro bknew hb1 ha1 sym bk' hbk'
          rw [alistLookup_set] at hbk'
          by_cases he : m.s = sym
          · rw [if_pos he] at hbk'
            cases hbk'
            exact ⟨hb1, ha1⟩
          · rw [if_neg he] at hbk'
            exact h2 sym bk' hbk'
        rcases Bool.eq_false_or_eq_true ((applyUpdates bk.bids [] m.b).2.2) with
          herr | herr
        · simp [herr]
          exact fun sym bk' hbk' =>
            hstore ⟨(applyUpdates bk.bids [] m.b).1, bk.asks⟩ hbids' hasks sym bk' hbk'
        · rcases Bool.eq_false_or_eq_true ((applyUpdates bk.asks [] m.a).2.2) with
            herr2 | herr2 <;>
          · simp [herr, herr2]
            exact fun sym bk' hbk' =>
              hstore ⟨(applyUpdates bk.bids [] m.b).1, (applyUpdates bk.asks [] m.a).1⟩
                hbids' (applyUpdates_pos m.a bk.asks [] hasks ha) sym bk' hbk'
    | true =>
      rw [if_pos rfl]
      exact h2

theorem booksPos_process (st : FeedState) (m : BookUpdateMsg) (receipt : Rat)
    (snap : SnapResp) (h : booksPos st) (hb : wfLevels m.b) (ha : wfLevels m.a)
    (hs : wfSnap snap) : booksPos (_process_l2_book st m receipt snap).1 := by
  unfold _process_l2_book
  split
  · exact booksPos_validated st [] m receipt h hb ha
  · exact booksPos_validated _ _ m receipt
      (booksPos_snapshot st m.s receipt snap h hs) hb ha

theorem booksPos_handler (st : FeedState) (msg : InboundMsg) (receipt : Rat)
    (snap : SnapResp) (h : booksPos st) (hm : wfMsg msg) (hs : wfSnap snap) :
    booksPos (message_handler st msg receipt snap).1 := by
  cases msg with
  | malformedJson => exact h
  | subscribeEvent => exact h
  | bookUpdate m => exact booksPos_process st m receipt snap h hm.1 hm.2 hs
  | otherChannel => exact h

theorem booksPos_runMsgs (msgs : List (InboundMsg × Rat × SnapResp)) :
    ∀ st : FeedState, booksPos st →
      (∀ e ∈ msgs, wfMsg e.1 ∧ wfSnap e.2.2) →
      booksPos (runMsgs st msgs) := by
  induction msgs with
  | nil => intro st h _; exact h
  | cons e rest ih =>
    intro st h hwf
    obtain ⟨msg, r, snap⟩ := e
    have he := hwf _ (List.mem_cons_self _ _)
    exact ih _ (booksPos_handler st msg r snap h he.1 he.2)
      (fun e' he' => hwf e' (List.mem_cons_of_mem _ he'))

/-- C8: starting from the reset performed at subscription time, after any
stream of inbound messages whose book-update level sizes are nonnegative
and whose snapshot responses hold strictly positive sizes, every size
stored at any price level of any tracked book is strictly positive — a
zero size is never stored. -/
theorem stored_sizes_strictly_positive (msgs : List (InboundMsg × Rat × SnapResp))
    (hwf : ∀ e ∈ msgs, wfMsg e.1 ∧ wfSnap e.2.2) :
    booksPos (runMsgs resetState msgs) :=
  booksPos_runMsgs msgs resetState booksPos_resetState hwf

/-! ### Parse errors (C9) -/

/-- C9 counterexample: this sequence-valid message whose second bid level
is numerically unparseable raises a ParseError, yet the first level was
already applied to the book and `last_update_id` was already advanced from
100 to 105 — book mutation occurs and the synchronization state is
touched. -/
theorem parse_error_after_partial_mutation :
    (message_handler exSyncedState (.bookUpdate exBadBatch) 7 exSnap).2.2
      = some ProcError.parseError ∧
    alistLookup
      (message_handler exSyncedState (.bookUpdate exBadBatch) 7 exSnap).1.lastUpdateId
      "BTC_USD" = some 105 ∧
    alistLookup
      (message_handler exSyncedState (.bookUpdate exBadBatch) 7 exSnap).1.l2Book
      "BTC_USD" = some ⟨[(5, 2)], []⟩ ∧
    ¬ (alistLookup exSyncedState.lastUpdateId "BTC_USD" = some 105) := by
  refine ⟨?_, ?_, ?_, ?_⟩ <;> decide

/-- C9 (amended): a message that fails JSON decoding is dropped with a
ParseError before anything runs — state untouched, nothing emitted, not
treated as a gap. A numeric parse failure inside an accepted batch's level
lists also raises a ParseError and emits nothing, and it too is not
treated as a gap (no reset: the symbol stays tracked and its sync fields
are those left by the already-performed sequence check) — but the
already-advanced `last_update_id` and the level updates applied before the
failure persist. -/
theorem parse_error_handling (st : FeedState) (m : BookUpdateMsg) (receipt : Rat)
    (snap : SnapResp) (st2 : FeedState) (bk : SymbolBook)
    (htrack : (alistLookup st.l2Book m.s).isSome = true)
    (hcheck : _check_update_id st m.s m.seqU m.sequ = some (st2, false))
    (hbk : alistLookup st2.l2Book m.s = some bk)
    (herr : (applyUpdates bk.bids [] m.b).2.2 = true ∨
            (applyUpdates bk.asks [] m.a).2.2 = true) :
    (∀ (st' : FeedState) (r' : Rat) (snap' : SnapResp),
      message_handler st' .malformedJson r' snap' = (st', [], some ProcError.parseError)) ∧
    (_process_l2_book st m receipt snap).2.2 = some ProcError.parseError ∧
    (_process_l2_book st m receipt snap).2.1 = [] ∧
    (_process_l2_book st m receipt snap).1.lastUpdateId = st2.lastUpdateId ∧
    (_process_l2_book st m receipt snap).1.forced = st2.forced ∧
    (alistLookup (_process_l2_book st m receipt snap).1.l2Book m.s).isSome = true := by
  have hred : ∃ bknew : SymbolBook,
      _process_l2_book st m receipt snap =
        ({ st2 with l2Book := alistSet st2.l2Book m.s bknew }, [],
         some ProcError.parseError) := by
    unfold _process_l2_book
    rw [if_pos htrack]
    unfold _process_l2_book_validated
    simp only [hcheck]
    rw [if_neg (by simp)]
    simp only [hbk]
    rcases Bool.eq_false_or_eq_true ((applyUpdates bk.bids [] m.b).2.2) with hfb | hfb
    · exact ⟨⟨(applyUpdates bk.bids [] m.b).1, bk.asks⟩, by simp [hfb]⟩
    · rcases herr with h' | h'
      · rw [hfb] at h'
        cases h'
      · exact ⟨⟨(applyUpdates bk.bids [] m.b).1, (applyUpdates bk.asks [] m.a).1⟩,
          by simp [hfb, h']⟩
  obtain ⟨bknew, hred⟩ := hred
  refine ⟨fun st' r' snap' => rfl, ?_, ?_, ?_, ?_, ?_⟩ <;> rw [hred] <;>
    simp [alistLookup_set]

/-! ### Key alignment of `_l2_book` and `last_update_id` (C10) -/

theorem keysAligned_snapshot (st : FeedState) (sym : String) (now : Rat)
    (resp : SnapResp) (h : keysAligned st) :
    keysAligned (_snapshot st sym now resp).1 := by
  intro sym'
  simp only [_snapshot]
  rw [alistLookup_set, alistLookup_set]
  by_cases he : sym = sym'
  · rw [if_pos he, if_pos he]
    rfl
  · rw [if_neg he, if_neg he]
    exact h sym'

theorem keysAligned_check (st : FeedState) (pair : String) (seqU sequ : Int)
    (st' : FeedState) (skip : Bool)
    (hc : _check_update_id st pair seqU sequ = some (st', skip))
    (h : keysAligned st) : keysAligned st' := by
  rcases check_update_id_cases st pair seqU sequ st' skip hc with
    ⟨he, _⟩ | ⟨he, _⟩ | ⟨last, hlast, hupd, hbook, _⟩
  · rw [he]; exact h
  · rw [he]; exact fun sym => rfl
  · intro sym
    rw [hbook, hupd, alistLookup_set]
    by_cases he : pair = sym
    · subst he
      have hx := h pair
      rw [hlast] at hx
      rw [if_pos rfl]
      exact hx
    · rw [if_neg he]
      exact h sym

theorem keysAligned_validated (st1 : FeedState) (emits : List Emission)
    (m : BookUpdateMsg) (receipt : Rat)
    (h1 : keysAligned st1)
    (htrack : (alistLookup st1.l2Book m.s).isSome = true) :
    keysAligned (_process_l2_book_validated st1 emits m receipt).1 ∧
    (_process_l2_book_validated st1 emits m receipt).2.2 ≠ some ProcError.keyError := by
  unfold _process_l2_book_validated
  rcases hc : _check_update_id st1 m.s m.seqU m.sequ with _ | ⟨st2, skip⟩
  · exfalso
    have hiff := check_update_id_isSome_iff st1 m.s m.seqU m.sequ
    rw [hc] at hiff
    have hx := h1 m.s
    rw [htrack] at hx
    rw [← hx] at hiff
    simp at hiff
  · simp only [hc]
    have h2 : keysAligned st2 := keysAligned_check st1 m.s m.seqU m.sequ st2 skip hc h1
    cases skip with
    | true =>
      rw [if_pos rfl]
      exact ⟨h2, by simp⟩
    | false =>
      rw [if_neg (by simp)]
      cases hbk : alistLookup st2.l2Book m.s with
      | none =>
        exfalso
        rcases check_update_id_cases st1 m.s m.seqU m.sequ st2 false hc with
          ⟨_, hskip⟩ | ⟨_, hskip⟩ | ⟨last, _, _, hbook, _⟩
        · simp at hskip
        · simp at hskip
        · rw [hbook] at hbk
          rw [hbk] at htrack
          simp at htrack
      | some bk =>
        simp only [hbk]
        have hst3 : ∀ bknew : SymbolBook,
            keysAligned { st2 with l2Book := alistSet st2.l2Book m.s bknew } := by
          intro bknew sym
          show (alistLookup (alistSet st2.l2Book m.s bknew) sym).isSome = _
          rw [alistLookup_set]
          by_cases he : m.s = sym
          · subst he
            have hx := h2 m.s
            rw [hbk] at hx
            rw [if_pos rfl]
            exact hx
          · rw [if_neg he]
            exact h2 sym
        split <;> first
          | exact ⟨hst3 _, by simp⟩
          | (split <;> exact ⟨hst3 _, by simp⟩)

theorem keysAligned_process (st : FeedState) (m : BookUpdateMsg) (receipt : Rat)
    (snap : SnapResp) (h : keysAligned st) :
    keysAligned (_process_l2_book st m receipt snap).1 ∧
    (_process_l2_book st m receipt snap).2.2 ≠ some ProcError.keyError := by
  unfold _process_l2_book
  by_cases htr : (alistLookup st.l2Book m.s).isSome = true
  · rw [if_pos htr]
    exact keysAligned_validated st [] m receipt h htr
  · rw [if_neg htr]
    have htr' : (alistLookup (_snapshot st m.s receipt snap).1.l2Book m.s).isSome
        = true := by
      simp only [_snapshot]
      rw [alistLookup_set, if_pos rfl]
      rfl
    exact keysAligned_validated _ _ m receipt
      (keysAligned_snapshot st m.s receipt snap h) htr'

/-- C10: after every core operation the symbols holding a book are exactly
the symbols holding a baseline sequence id (`_l2_book` and
`last_update_id` stay key-aligned through reset, snapshot, book processing
and the message handler); consequently processing never fails with a
`KeyError` — the `last_update_id[pair]` lookup of the sequence check
cannot miss. -/
theorem book_and_baseline_keys_aligned :
    keysAligned resetState ∧
    (∀ (st : FeedState) (sym : String) (now : Rat) (resp : SnapResp),
      keysAligned st → keysAligned (_snapshot st sym now resp).1) ∧
    (∀ (st : FeedState) (m : BookUpdateMsg) (receipt : Rat) (snap : SnapResp),
      keysAligned st →
        keysAligned (_process_l2_book st m receipt snap).1 ∧
        (_process_l2_book st m receipt snap).2.2 ≠ some ProcError.keyError) ∧
    (∀ (st : FeedState) (msg : InboundMsg) (receipt : Rat) (snap : SnapResp),
      keysAligned st →
        keysAligned (message_handler st msg receipt snap).1 ∧
        (message_handler st msg receipt snap).2.2 ≠ some ProcError.keyError) := by
  refine ⟨fun sym => rfl, keysAligned_snapshot, keysAligned_process, ?_⟩
  intro st msg receipt snap h
  cases msg with
  | malformedJson => exact ⟨h, by simp [message_handler]⟩
  | subscribeEvent => exact ⟨h, by simp [message_handler]⟩
  | bookUpdate m => exact keysAligned_process st m receipt snap h
  | otherChannel => exact ⟨h, by simp [message_handler]⟩

/-! ### Concrete witnesses -/

theorem awaiting_bridge_transition_witness :
    (_check_update_id exAwaitState "BTC_USD" 95 101 =
      some ({ exAwaitState with
                lastUpdateId := alistSet exAwaitState.lastUpdateId "BTC_USD" 101,
                forced := alistSet exAwaitState.forced "BTC_USD" true }, false)) ∧
    _check_update_id exAwaitState "BTC_USD" 102 105 = some (resetState, true) ∧
    _check_update_id exAwaitState "BTC_USD" 90 100 = some (exAwaitState, true) :=
  ⟨((awaiting_bridge_transition exAwaitState "BTC_USD" 95 101 100 (by decide)
      (by decide)).2.1 (by decide) (by decide)).1,
   (awaiting_bridge_transition exAwaitState "BTC_USD" 102 105 100 (by decide)
      (by decide)).2.2 (by decide) (by decide),
   (awaiting_bridge_transition exAwaitState "BTC_USD" 90 100 100 (by decide)
      (by decide)).1 (by decide)⟩

theorem synced_acceptance_monotonicity_witness :
    (_check_update_id exSyncedState "BTC_USD" 101 105 =
      some ({ exSyncedState with
                lastUpdateId := alistSet exSyncedState.lastUpdateId "BTC_USD" 105 },
            false)) ∧
    _check_update_id exSyncedState "BTC_USD" 103 105 = some (resetState, true) :=
  ⟨((synced_acceptance_monotonicity exSyncedState "BTC_USD" 101 105 100 (by decide)
      (by decide)).1 (by decide)).1,
   (synced_acceptance_monotonicity exSyncedState "BTC_USD" 103 105 100 (by decide)
      (by decide)).2.1 (by decide)⟩

theorem delta_application_step_witness :
    (applyUpdates [((54664 : Rat), (12000 : Rat))] [] [⟨some (54664 : Rat), some 58794⟩] =
      applyUpdates (alistSet [((54664 : Rat), (12000 : Rat))] (54664 : Rat) 58794)
        ([] ++ [((54664 : Rat), 58794)]) []) ∧
    alistLookup (alistSet [((54664 : Rat), (12000 : Rat))] (54664 : Rat) 58794) (54664 : Rat)
      = some 58794 :=
  (delta_application_step [((54664 : Rat), (12000 : Rat))] [] (54664 : Rat) 58794 []).2.2
    (by decide)

theorem gap_reset_clears_every_symbol_witness :
    _check_update_id exTwoSymbolState "A" 102 105 = some (resetState, true) ∧
    alistLookup resetState.l2Book "B" = none ∧
    alistLookup resetState.lastUpdateId "B" = none := by
  obtain ⟨h1, h2, _⟩ := gap_reset_clears_every_symbol exTwoSymbolState "A" 102 105 100
    (by decide) (by decide) (by decide)
  exact ⟨h1, (h2 "B").1, (h2 "B").2.1⟩

theorem snapshot_establishes_awaiting_bridge_witness :
    alistLookup (_snapshot resetState "BTC_USD" 7 exSnapResp).1.lastUpdateId "BTC_USD"
      = some 2000 ∧
    (_snapshot resetState "BTC_USD" 7 exSnapResp).1.forcedAt "BTC_USD" = false := by
  obtain ⟨h1, h2, _⟩ := snapshot_establishes_awaiting_bridge resetState "BTC_USD" 7
    exSnapResp (by decide) (by decide) (by decide)
  exact ⟨h1, h2⟩

theorem applied_batch_emission_witness :
    ∃ em : Emission, (_process_l2_book exSyncedState exBatch 7 exSnap).2.1 = [em] ∧
      em.timestamp = some ((2000 : Rat) / 1000) ∧
      em.raw = RawPayload.bookMsg exBatch ∧
      em.sequenceNumber = none := by
  obtain ⟨em, h1, h2, h3, h4, h5, h6⟩ := applied_batch_emission exSyncedState exBatch 7
    exSnap ⟨[("BTC_USD", ⟨[], []⟩)], [("BTC_USD", 105)], [("BTC_USD", true)]⟩ ⟨[], []⟩
    (by decide) (by decide) (by decide) (by decide) (by decide)
  exact ⟨em, h1, h4, h5, h6⟩

theorem reset_produces_no_emission_witness :
    _process_l2_book exSyncedState exGapBatch 7 exSnap = (resetState, [], none) :=
  (reset_produces_no_emission exSyncedState exGapBatch 7 exSnap 100 (by decide)
    (by decide) (by decide) (by decide)).1

theorem stored_sizes_strictly_positive_witness :
    booksPos (runMsgs resetState [(.bookUpdate exEmptyBatch, 7, exSnapResp)]) :=
  stored_sizes_strictly_positive [(.bookUpdate exEmptyBatch, 7, exSnapResp)]
    (by
      intro e he
      rcases List.mem_singleton.mp he with rfl
      exact ⟨⟨fun lv hlv => absurd hlv (List.not_mem_nil lv),
              fun lv hlv => absurd hlv (List.not_mem_nil lv)⟩,
             by decide, by decide⟩)

theorem parse_error_handling_witness :
    (_process_l2_book exSyncedState exBadBatch 7 exSnap).2.2
      = some ProcError.parseError ∧
    (_process_l2_book exSyncedState exBadBatch 7 exSnap).2.1 = [] := by
  obtain ⟨_, h2, h3, _⟩ := parse_error_handling exSyncedState exBadBatch 7 exSnap
    ⟨[("BTC_USD", ⟨[], []⟩)], [("BTC_USD", 105)], [("BTC_USD", true)]⟩ ⟨[], []⟩
    (by decide) (by decide) (by decide) (Or.inl (by decide))
  exact ⟨h2, h3⟩

theorem book_and_baseline_keys_aligned_witness :
    keysAligned (_process_l2_book exSyncedState exBatch 7 exSnap).1 ∧
    (_process_l2_book exSyncedState exBatch 7 exSnap).2.2 ≠ some ProcError.keyError :=
  book_and_baseline_keys_aligned.2.2.1 exSyncedState exBatch 7 exSnap
    (by
      intro sym
      by_cases h : "BTC_USD" = sym
      · subst h
        rfl
      · simp [exSyncedState, alistLookup, h])

end GateioFutures
